import Mathlib

/-!
Verification development for the Omni-Cortex storage and retrieval engine.

Shallow embedding of the Python source:
* `hooks/pre_tool_use.py`, `hooks/post_tool_use.py` — activity-logging hooks
  (sensitive-field redaction, truncation, session lifecycle, skip of the
  system's own tools);
* `src/omni_cortex/database/migrations.py` — schema migrations;
* `src/omni_cortex/embeddings/local.py` — vector blob serialization,
  embedding store, backfill;
* `src/omni_cortex/models/activity.py`, `src/omni_cortex/tools/activities.py`
  — activity write path of the MCP tool layer;
* the keyword search engine (modelled from the spec where the module is not
  part of the source snapshot).

Machine integers are modelled as `Nat`/`Int`; timestamps as integer
milliseconds; SQLite tables as Lean lists of row structures.
-/

namespace OmniCortex

/-! ## Strings: substring search (Python `in` / `re.search` of a literal) -/

/-- `isPrefList n h` : list `n` is a prefix of list `h`. -/
def isPrefList : List Char → List Char → Bool
  | [], _ => true
  | _ :: _, [] => false
  | a :: as, b :: bs => a == b && isPrefList as bs

/-- `hasSubList n h` : list `n` occurs as a contiguous sublist of `h`
(Python `n in h` for strings). -/
def hasSubList (needle : List Char) : List Char → Bool
  | [] => isPrefList needle []
  | c :: rest => isPrefList needle (c :: rest) || hasSubList needle rest

/-- `hasSub needle hay` : Python `needle in hay` on strings. -/
def hasSub (needle hay : String) : Bool :=
  hasSubList needle.data hay.data

/-! ## JSON-like payload values

`tool_input` / `tool_output` arrive in the hooks as parsed JSON: dicts,
lists, strings, numbers, booleans, null.  Mutual inductives stand for the
Python dynamic value. -/

mutual
inductive JVal where
  | str (s : String)
  | num (n : Int)
  | bool (b : Bool)
  | null
  | obj (fields : JFields)
  | arr (items : JItems)
inductive JFields where
  | nil
  | cons (key : String) (value : JVal) (rest : JFields)
inductive JItems where
  | nil
  | cons (value : JVal) (rest : JItems)
end

/-- First-match lookup of a key in a JSON object's field list
(Python dict access; dict keys are unique, lookup takes the first). -/
def JFields.lookup : JFields → String → Option JVal
  | .nil, _ => none
  | .cons k v rest, key => if k = key then some v else rest.lookup key

/-- A scalar payload value: not a dict and not a list. -/
def JVal.isScalar : JVal → Bool
  | .obj _ => false
  | .arr _ => false
  | _ => true

/-! ## Sensitive-field redaction (`hooks/pre_tool_use.py:35-41,166-194`,
identical in `hooks/post_tool_use.py:33-39,42-70`)

`SENSITIVE_FIELD_PATTERNS` are case-insensitive regexes of literal
alternations applied with `re.search`, i.e. substring match anywhere in the
key.  Expanding each alternation (`[_-]?` -> nothing, `_`, `-`) gives the
literal substrings below, matched against the lower-cased key. -/

def sensitiveNeedles : List String :=
  [ "api_key", "api-key", "apikey"
  , "password", "passwd", "pwd"
  , "secret", "token", "credential"
  , "auth_token", "auth-token", "authtoken"
  , "access_token", "access-token", "accesstoken"
  , "private_key", "private-key", "privatekey"
  , "ssh_key", "ssh-key", "sshkey" ]

/-- ASCII lower-casing of one character (`str.lower` on the ASCII keys the
patterns consist of; `(?i)` on ASCII literals). -/
def lowerChar (c : Char) : Char :=
  if 65 ≤ c.toNat ∧ c.toNat ≤ 90 then Char.ofNat (c.toNat + 32) else c

/-- ASCII lower-casing of a string. -/
def lowerStr (s : String) : String := String.mk (s.data.map lowerChar)

/-- A key matches `SENSITIVE_FIELD_PATTERNS` iff one of the literal
substrings occurs in it, case-insensitively. -/
def isSensitiveKey (key : String) : Bool :=
  sensitiveNeedles.any (fun needle => hasSub needle (lowerStr key))

/-- The redaction marker written in place of a sensitive value. -/
def REDACTED : JVal := JVal.str "[REDACTED]"

mutual
/-- `redact_sensitive_fields(data)`: a non-dict is returned unchanged;
a dict is rebuilt with `redactFields`. -/
def redact_sensitive_fields : JVal → JVal
  | JVal.obj fields => JVal.obj (redactFields fields)
  | v => v
/-- The loop body of `redact_sensitive_fields` over `data.items()`. -/
def redactFields : JFields → JFields
  | JFields.nil => JFields.nil
  | JFields.cons k v rest => JFields.cons k (redactEntry k v) (redactFields rest)
/-- One `key, value` entry: sensitive key -> marker; dict value -> recurse;
list value -> recurse into dict items only; otherwise unchanged. -/
def redactEntry (k : String) : JVal → JVal
  | JVal.obj fields =>
      if isSensitiveKey k then REDACTED else JVal.obj (redactFields fields)
  | JVal.arr items =>
      if isSensitiveKey k then REDACTED else JVal.arr (redactItems items)
  | v => if isSensitiveKey k then REDACTED else v
/-- The list comprehension: dict items are redacted, other items kept. -/
def redactItems : JItems → JItems
  | JItems.nil => JItems.nil
  | JItems.cons (JVal.obj fields) rest =>
      JItems.cons (JVal.obj (redactFields fields)) (redactItems rest)
  | JItems.cons v rest => JItems.cons v (redactItems rest)
end

/-! ## JSON serialization (`json.dumps` with default separators) and
`truncate` (`hooks/pre_tool_use.py:249-253`).

`json.dumps` is modelled on the payload domain the hooks handle: strings of
printable characters (quote, backslash, newline, tab, carriage return
escaped), integers, booleans, null, dicts and lists, separators `, ` and
`: `. -/

def escapeJsonChar (c : Char) : String :=
  if c = '"' then "\\\""
  else if c = '\\' then "\\\\"
  else if c = '\n' then "\\n"
  else if c = '\t' then "\\t"
  else if c = '\r' then "\\r"
  else String.singleton c

def escapeJson (s : String) : String :=
  String.join (s.data.map escapeJsonChar)

mutual
def dumps : JVal → String
  | JVal.str s => "\"" ++ escapeJson s ++ "\""
  | JVal.num n => toString n
  | JVal.bool b => if b then "true" else "false"
  | JVal.null => "null"
  | JVal.obj fields => "\x7b" ++ dumpsFields fields ++ "\x7d"
  | JVal.arr items => "[" ++ dumpsItems items ++ "]"
def dumpsFields : JFields → String
  | JFields.nil => ""
  | JFields.cons k v JFields.nil => "\"" ++ escapeJson k ++ "\": " ++ dumps v
  | JFields.cons k v rest =>
      "\"" ++ escapeJson k ++ "\": " ++ dumps v ++ ", " ++ dumpsFields rest
def dumpsItems : JItems → String
  | JItems.nil => ""
  | JItems.cons v JItems.nil => dumps v
  | JItems.cons v rest => dumps v ++ ", " ++ dumpsItems rest
end

/-- `truncate(text, max_length=10000)` from the hooks: texts at or under the
cap pass unchanged, longer texts are cut to `max_length - 20` characters
with a truncation marker appended. -/
def truncate (text : String) (max_length : Nat := 10000) : String :=
  if text.length ≤ max_length then text
  else text.take (max_length - 20) ++ "\n... [truncated]"

example : isSensitiveKey "api_key" = true := by decide
example : isSensitiveKey "path" = false := by decide
example : isSensitiveKey "API-Key" = true := by decide
example :
    redact_sensitive_fields
      (JVal.obj (JFields.cons "api_key" (JVal.str "sk-123")
        (JFields.cons "path" (JVal.str "/f") JFields.nil)))
      = JVal.obj (JFields.cons "api_key" (JVal.str "[REDACTED]")
        (JFields.cons "path" (JVal.str "/f") JFields.nil)) := rfl

/-- `json.dumps({})`. -/
def emptyJson : String := "\x7b\x7d"

/-! ## Session lifecycle (`hooks/pre_tool_use.py:31-163`; `post_tool_use.py`
imports the identical `get_or_create_session` from the hooks' shared session
module)

Timestamps are integer milliseconds.  `is_session_valid` compares elapsed
seconds (a float with millisecond precision) strictly against the timeout;
`elapsed_ms < 14400000` is exactly `elapsed_s < 14400`. -/

def SESSION_TIMEOUT_SECONDS : Int := 4 * 60 * 60

/-- `generate_session_id`: `sess_{timestamp_ms}_{random_hex}`.  The id is
modelled as the pair the format string is built from; the rendering
`"sess_" ++ ms ++ "_" ++ hex` is injective on the pair (decimal digits,
then an underscore, then hex digits). -/
structure SessId where
  ms : Int
  rand : String
deriving DecidableEq, Repr

/-- `generate_id` for activities: `act_{timestamp_ms}_{random_hex}`. -/
structure ActId where
  ms : Int
  rand : String
deriving DecidableEq, Repr

/-- The persisted `current_session.json` marker.  `last_activity_at = none`
models a missing or unparsable field. -/
structure SessionData where
  session_id : SessId
  project_path : String
  started_at : Int
  last_activity_at : Option Int

/-- One row of the hooks' `sessions` table. -/
structure SessionRow where
  id : SessId
  project_path : String
  started_at : Int

/-- One row of the `activities` table as the hooks insert it. -/
structure ActRow where
  id : ActId
  session_id : Option SessId
  agent_id : Option String
  timestamp : Int
  event_type : String
  tool_name : Option String
  tool_input : Option String
  tool_output : Option String
  duration_ms : Option Int
  success : Bool
  error_message : Option JVal
  project_path : Option String
  file_path : Option String

/-- The database the hooks touch. -/
structure HookDb where
  activities : List ActRow
  sessions : List SessionRow

/-- Hook-visible persistent state: the database file plus the session
marker file (`none` = missing file or JSON decode error). -/
structure HookState where
  db : HookDb
  sessionFile : Option SessionData

/-- `is_session_valid(session_data)`: missing `last_activity_at` is invalid;
otherwise the session is valid iff strictly less than the timeout has
elapsed. -/
def is_session_valid (sd : SessionData) (nowMs : Int) : Bool :=
  match sd.last_activity_at with
  | none => false
  | some t => nowMs - t < SESSION_TIMEOUT_SECONDS * 1000

/-- `create_session_in_db`: `INSERT OR IGNORE INTO sessions` — appends the
row unless a row with the same id already exists. -/
def create_session_in_db (db : HookDb) (sid : SessId) (project_path : String)
    (nowMs : Int) : HookDb :=
  if db.sessions.any (fun r => r.id = sid) then db
  else { db with sessions := db.sessions ++ [⟨sid, project_path, nowMs⟩] }

/-- `get_or_create_session(conn, project_path)`: reuse and refresh a valid
marker; otherwise create a fresh session (db row + marker file). -/
def get_or_create_session (st : HookState) (nowMs : Int) (rand : String)
    (project_path : String) : SessId × HookState :=
  match st.sessionFile with
  | some sd =>
    if is_session_valid sd nowMs then
      (sd.session_id,
        { st with sessionFile := some { sd with last_activity_at := some nowMs } })
    else
      let sid : SessId := ⟨nowMs, rand⟩
      (sid, { db := create_session_in_db st.db sid project_path nowMs
            , sessionFile := some ⟨sid, project_path, nowMs, some nowMs⟩ })
  | none =>
      let sid : SessId := ⟨nowMs, rand⟩
      (sid, { db := create_session_in_db st.db sid project_path nowMs
            , sessionFile := some ⟨sid, project_path, nowMs, some nowMs⟩ })

/-! ## Hook entry points (`pre_tool_use.main`, `post_tool_use.main`)

Each `main` is wrapped in `try/except`; the handler prints a
`systemMessage` JSON instead of propagating.  Database failures are
injected through `DbFail` (connection/schema setup, and the activity
INSERT + commit); the remaining pipeline is pure. -/

/-- Failure oracle for the two points where the database layer can raise:
`ensure_database` (connect / schema bootstrap) and the activity
INSERT/commit.  `none` = the step succeeds. -/
structure DbFail where
  ensureExc : Option String
  insertExc : Option String

def noFail : DbFail := ⟨none, none⟩

/-- Outcome of reading and parsing stdin: empty input (the hook prints `{}`
and returns), a `json.loads` exception, or a parsed payload. -/
inductive ParseOutcome (α : Type) where
  | empty
  | invalid (e : String)
  | parsed (input : α)

/-- Parsed hook input for `pre_tool_use` (absent `tool_input` defaults to
`{}` at extraction, so the field is total here). -/
structure HookInput where
  tool_name : Option String
  tool_input : JVal
  agent_id : Option String

/-- Parsed hook input for `post_tool_use`. -/
structure PostInput where
  tool_name : Option String
  tool_input : JVal
  tool_output : JVal
  agent_id : Option String
  is_error : Bool

/-- `tool_name and ("cortex_" in tool_name or "omni-cortex" in tool_name)`:
the guard that skips logging the memory system's own tools. -/
def isCortexTool : Option String → Bool
  | none => false
  | some t => hasSub "cortex_" t || hasSub "omni-cortex" t

/-- Python truthiness of a JSON value. -/
def JVal.truthy : JVal → Bool
  | .str s => !s.isEmpty
  | .num n => n != 0
  | .bool b => b
  | .null => false
  | .obj .nil => false
  | .obj (.cons _ _ _) => true
  | .arr .nil => false
  | .arr (.cons _ _) => true

/-- `tool_output.get("error") or tool_output.get("message")` when
`is_error` and the output is a dict. -/
def errorMessageOf (is_error : Bool) (out : JVal) : Option JVal :=
  if is_error then
    match out with
    | JVal.obj f =>
      match f.lookup "error" with
      | some v => if v.truthy then some v else f.lookup "message"
      | none => f.lookup "message"
    | _ => none
  else none

/-- The *persisted* serialization of a payload in the hooks:
redact (dicts only — `redact_sensitive_fields` returns non-dicts
unchanged), serialize, truncate. -/
def persistedPayload (v : JVal) : String :=
  truncate (dumps (redact_sensitive_fields v))

/-- Body of `pre_tool_use.main` up to the `except` handler.  An error
carries the exception message and the state reached when it was raised
(earlier steps commit independently; the failed INSERT itself is rolled
back). -/
def preMainBody (fail : DbFail) (st : HookState)
    (parse : ParseOutcome HookInput) (nowMs : Int)
    (sessRand actRand : String) (project_path : String) :
    Except (String × HookState) (HookState × String) :=
  match parse with
  | .empty => .ok (st, emptyJson)
  | .invalid e => .error (e, st)
  | .parsed input =>
    if isCortexTool input.tool_name then .ok (st, emptyJson)
    else
      match fail.ensureExc with
      | some e => .error (e, st)
      | none =>
        let gos := get_or_create_session st nowMs sessRand project_path
        let sid := gos.1
        let st1 := gos.2
        match fail.insertExc with
        | some e => .error (e, st1)
        | none =>
          let row : ActRow :=
            { id := ⟨nowMs, actRand⟩
            , session_id := some sid
            , agent_id := input.agent_id
            , timestamp := nowMs
            , event_type := "pre_tool_use"
            , tool_name := input.tool_name
            , tool_input := some (persistedPayload input.tool_input)
            , tool_output := none
            , duration_ms := none
            , success := true
            , error_message := none
            , project_path := some project_path
            , file_path := none }
          .ok ({ st1 with db := { st1.db with
                   activities := st1.db.activities ++ [row] } }, emptyJson)

/-- `pre_tool_use.main`: the `try/except` wrapper — failures become a
`systemMessage` JSON printed from the handler, never a propagated
exception. -/
def preToolUseMain (fail : DbFail) (st : HookState)
    (parse : ParseOutcome HookInput) (nowMs : Int)
    (sessRand actRand : String) (project_path : String) :
    HookState × String :=
  match preMainBody fail st parse nowMs sessRand actRand project_path with
  | .ok r => r
  | .error (e, st') =>
      (st', dumps (JVal.obj (JFields.cons "systemMessage"
        (JVal.str ("Cortex pre_tool_use: " ++ e)) JFields.nil)))

/-- Body of `post_tool_use.main` up to the `except` handler. -/
def postMainBody (fail : DbFail) (st : HookState)
    (parse : ParseOutcome PostInput) (nowMs : Int)
    (sessRand actRand : String) (project_path : String) :
    Except (String × HookState) (HookState × String) :=
  match parse with
  | .empty => .ok (st, emptyJson)
  | .invalid e => .error (e, st)
  | .parsed input =>
    if isCortexTool input.tool_name then .ok (st, emptyJson)
    else
      match fail.ensureExc with
      | some e => .error (e, st)
      | none =>
        let gos := get_or_create_session st nowMs sessRand project_path
        let sid := gos.1
        let st1 := gos.2
        match fail.insertExc with
        | some e => .error (e, st1)
        | none =>
          let row : ActRow :=
            { id := ⟨nowMs, actRand⟩
            , session_id := some sid
            , agent_id := input.agent_id
            , timestamp := nowMs
            , event_type := "post_tool_use"
            , tool_name := input.tool_name
            , tool_input := some (persistedPayload input.tool_input)
            , tool_output := some (persistedPayload input.tool_output)
            , duration_ms := none
            , success := !input.is_error
            , error_message := errorMessageOf input.is_error input.tool_output
            , project_path := some project_path
            , file_path := none }
          .ok ({ st1 with db := { st1.db with
                   activities := st1.db.activities ++ [row] } }, emptyJson)

/-- `post_tool_use.main`: the `try/except` wrapper. -/
def postToolUseMain (fail : DbFail) (st : HookState)
    (parse : ParseOutcome PostInput) (nowMs : Int)
    (sessRand actRand : String) (project_path : String) :
    HookState × String :=
  match postMainBody fail st parse nowMs sessRand actRand project_path with
  | .ok r => r
  | .error (e, st') =>
      (st', dumps (JVal.obj (JFields.cons "systemMessage"
        (JVal.str ("Cortex post_tool_use: " ++ e)) JFields.nil)))

/-! ## MCP activity write path
(`src/omni_cortex/models/activity.py:53-138`, `src/omni_cortex/tools/activities.py:77-121`)

`cortex_log_activity` receives payloads as already-serialized JSON strings
(`tool_input`/`tool_output : Optional[str]`), truncates oversized ones, and
inserts; the whole body sits in a `try/except` returning an error string. -/

/-- `ActivityCreate` (pydantic input model); payloads are strings here. -/
structure ActivityCreate where
  event_type : String
  tool_name : Option String
  tool_input : Option String
  tool_output : Option String
  duration_ms : Option Int
  success : Bool
  error_message : Option String
  file_path : Option String
  agent_id : Option String

/-- Modelled from the spec: `utils/truncation.py` is absent from the source
snapshot (only its caller `create_activity` is).  Spec §4.3: payload text is
truncated to a fixed maximum length with a truncation marker appended,
once, at write time. -/
def truncate_json (s : String) (max_length : Nat) : String :=
  s.take (max_length - 20) ++ "\n... [truncated]"

/-- `create_activity`'s payload cap: strings over 10000 characters are
truncated (`if tool_input and len(tool_input) > 10000`; the empty string is
falsy and skipped unchanged). -/
def capPayload : Option String → Option String
  | none => none
  | some s => if s.isEmpty then some s
      else if s.length > 10000 then some (truncate_json s 10000) else some s

/-- One row of the `agents` table. -/
structure AgentRow where
  id : String
  type : String
  first_seen : Int
  last_seen : Int
  total_activities : Int

/-- One row of the `activities` table as the MCP layer inserts it. -/
structure McpActRow where
  id : String
  session_id : Option String
  agent_id : Option String
  timestamp : Int
  event_type : String
  tool_name : Option String
  tool_input : Option String
  tool_output : Option String
  duration_ms : Option Int
  success : Bool
  error_message : Option String
  project_path : Option String
  file_path : Option String

/-- The database the MCP activity tools touch. -/
structure McpDb where
  activities : List McpActRow
  agents : List AgentRow

/-- The agent upsert executed before the activity insert:
`INSERT ... ON CONFLICT(id) DO UPDATE SET last_seen = ?,
total_activities = total_activities + 1`. -/
def upsertAgent (agents : List AgentRow) (aid : String) (nowMs : Int) :
    List AgentRow :=
  if agents.any (fun a => a.id = aid) then
    agents.map (fun a =>
      if a.id = aid then
        { a with last_seen := nowMs, total_activities := a.total_activities + 1 }
      else a)
  else agents ++ [⟨aid, "main", nowMs, nowMs, 1⟩]

/-- `create_activity(conn, data, session_id, project_path)`. -/
def create_activity (db : McpDb) (newId : String) (nowMs : Int)
    (data : ActivityCreate) (session_id : Option String)
    (project_path : Option String) : McpDb × McpActRow :=
  let tool_input := capPayload data.tool_input
  let tool_output := capPayload data.tool_output
  let agents :=
    match data.agent_id with
    | some aid => upsertAgent db.agents aid nowMs
    | none => db.agents
  let row : McpActRow :=
    { id := newId
    , session_id := session_id
    , agent_id := data.agent_id
    , timestamp := nowMs
    , event_type := data.event_type
    , tool_name := data.tool_name
    , tool_input := tool_input
    , tool_output := tool_output
    , duration_ms := data.duration_ms
    , success := data.success
    , error_message := data.error_message
    , project_path := project_path
    , file_path := data.file_path }
  ({ activities := db.activities ++ [row], agents := agents }, row)

/-- Failure oracle for `cortex_log_activity`: `init_database` and the
insert/commit inside `create_activity`.  `none` = the step succeeds. -/
structure ToolFail where
  initExc : Option String
  writeExc : Option String

/-- `cortex_log_activity(params)`: whole body in `try/except`; a raised
exception is swallowed into an `"Error logging activity: ..."` reply and
the uncommitted write is rolled back. -/
def cortex_log_activity (fail : ToolFail) (db : McpDb) (newId : String)
    (nowMs : Int) (params : ActivityCreate) (session_id : Option String)
    (project_path : String) : McpDb × String :=
  match fail.initExc with
  | some e => (db, "Error logging activity: " ++ e)
  | none =>
    match fail.writeExc with
    | some e => (db, "Error logging activity: " ++ e)
    | none =>
      let (db', row) :=
        create_activity db newId nowMs params session_id (some project_path)
      (db', "Logged: " ++ row.id
        ++ "\nType: " ++ row.event_type
        ++ "\nTool: " ++ (row.tool_name.getD "N/A")
        ++ "\nSuccess: " ++ (if row.success then "Yes" else "No"))

/-! ## Schema migrations (`src/omni_cortex/database/migrations.py`)

`conn.executescript` (Python `sqlite3`) commits any pending transaction and
then runs the script's statements one at a time with *no* transaction
control of its own: each statement that succeeds is committed at once; the
first failing statement raises, leaving the previously executed statements
committed.

`schema_migrations` rows are kept in insertion order; `now_iso()`
timestamps strictly increase across inserts, so
`ORDER BY applied_at DESC LIMIT 1` returns the last inserted row. -/

namespace Migrations

/-- The statement forms occurring in the migration scripts. -/
inductive Stmt where
  | addColumn (name : String)
  | createIndexIfAbsent (name : String)
deriving DecidableEq, Repr

/-- The `activities` columns and indexes the migrations touch. -/
structure DbSchema where
  columns : List String
  indexes : List String
deriving DecidableEq, Repr

/-- One SQL statement; `none` models a raised `sqlite3.OperationalError`
(`ALTER TABLE ... ADD COLUMN` fails on a duplicate column;
`CREATE INDEX IF NOT EXISTS` never fails on an existing index). -/
def runStmt (s : DbSchema) : Stmt → Option DbSchema
  | .addColumn c =>
      if s.columns.contains c then none
      else some { s with columns := s.columns ++ [c] }
  | .createIndexIfAbsent i =>
      some (if s.indexes.contains i then s
            else { s with indexes := s.indexes ++ [i] })

/-- `conn.executescript(sql)`: statements run and commit one at a time; a
failure stops the script, keeping the earlier statements committed.
Returns the committed state and whether the script completed. -/
def executescript (s : DbSchema) : List Stmt → DbSchema × Bool
  | [] => (s, true)
  | stmt :: rest =>
    match runStmt s stmt with
    | none => (s, false)
    | some s' => executescript s' rest

/-- `MIGRATIONS["1.1"]`. -/
def MIGRATION_1_1 : List Stmt :=
  [ .addColumn "command_name", .addColumn "command_scope"
  , .addColumn "mcp_server", .addColumn "skill_name"
  , .createIndexIfAbsent "idx_activities_command"
  , .createIndexIfAbsent "idx_activities_mcp"
  , .createIndexIfAbsent "idx_activities_skill" ]

/-- `MIGRATIONS["1.2"]`. -/
def MIGRATION_1_2 : List Stmt :=
  [ .addColumn "summary", .addColumn "summary_detail" ]

/-- The `MIGRATIONS` dict in insertion order. -/
def MIGRATIONS : List (String × List Stmt) :=
  [("1.1", MIGRATION_1_1), ("1.2", MIGRATION_1_2)]

/-- Python `<` on strings: lexicographic by code point. -/
def strLtList : List Char → List Char → Bool
  | [], [] => false
  | [], _ :: _ => true
  | _ :: _, [] => false
  | a :: as, b :: bs =>
    if a.toNat < b.toNat then true
    else if b.toNat < a.toNat then false
    else strLtList as bs

def pyStrLt (a b : String) : Bool := strLtList a.data b.data

/-- Stable insertion into a sorted list (Python `sorted`, ascending). -/
def insertSorted (x : String) : List String → List String
  | [] => [x]
  | y :: ys => if pyStrLt x y then x :: y :: ys else y :: insertSorted x ys

/-- Python `sorted` on a list of strings (insertion sort). -/
def sortStrings : List String → List String
  | [] => []
  | x :: xs => insertSorted x (sortStrings xs)

/-- Modelled from the spec: `database/schema.py` is absent from the source
snapshot (only its importers are).  Spec §4.1/§3: the baseline schema is
the complete current structure and the recorded baseline version is the
current schema version; the migration ledger's tests record exactly
`SCHEMA_VERSION` on a fresh database.  With additive migrations up to
`"1.2"`, the baseline version is `"1.2"`. -/
def SCHEMA_VERSION : String := "1.2"

/-- Modelled from the spec: the baseline `get_schema_sql()` structure,
restricted to the `activities` columns/indexes the migrations touch — the
baseline already contains everything the additive migrations would add. -/
def baselineSchema : DbSchema :=
  { columns := [ "command_name", "command_scope", "mcp_server", "skill_name"
               , "summary", "summary_detail" ]
  , indexes := [ "idx_activities_command", "idx_activities_mcp"
               , "idx_activities_skill" ] }

/-- The migration-visible database: the schema plus the
`schema_migrations` ledger (versions in insertion order). -/
structure MigDb where
  schema : DbSchema
  schema_migrations : List String
deriving DecidableEq, Repr

/-- `get_current_version`: latest ledger row by `applied_at`, i.e. the last
inserted row (`none` when the ledger is empty / the table is missing). -/
def get_current_version (db : MigDb) : Option String :=
  db.schema_migrations.getLast?

/-- `apply_migration(conn, version, sql)`: run the script, then record the
version and commit.  On a script failure the exception propagates: the
version row is not recorded, but the script's earlier statements remain
committed (`executescript` semantics). -/
def apply_migration (db : MigDb) (version : String) (script : List Stmt) :
    MigDb × Bool :=
  let (schema', ok) := executescript db.schema script
  if ok then
    ({ schema := schema'
     , schema_migrations := db.schema_migrations ++ [version] }, true)
  else
    ({ db with schema := schema' }, false)

/-- The `for version in versions: if version > current` loop of `migrate`.
Returns the database, the final version, the versions applied on this run,
and whether the run completed without raising. -/
def migrateLoop : List String → String → MigDb → MigDb × String × List String × Bool
  | [], current, db => (db, current, [], true)
  | v :: rest, current, db =>
    if pyStrLt current v then
      match apply_migration db v (((MIGRATIONS.lookup v).getD [])) with
      | (db', true) =>
        let (db2, fin, applied, ok) := migrateLoop rest v db'
        (db2, fin, v :: applied, ok)
      | (db', false) => (db', current, [v], false)
    else migrateLoop rest current db

/-- `migrate(db_path)`: fresh database → apply the full baseline schema and
record `SCHEMA_VERSION`; otherwise apply every migration with version
strictly greater than the recorded one, in ascending order.  Returns the
database, the returned version, the versions applied, and whether the run
completed without raising. -/
def migrate (db : MigDb) : MigDb × String × List String × Bool :=
  match get_current_version db with
  | none =>
    ({ schema := baselineSchema
     , schema_migrations := db.schema_migrations ++ [SCHEMA_VERSION] },
     SCHEMA_VERSION, [], true)
  | some current =>
    migrateLoop (sortStrings (MIGRATIONS.map Prod.fst)) current db

end Migrations

/-! ## Embedding store (`src/omni_cortex/embeddings/local.py`)

Float32 values are their 32-bit patterns (`Nat < 2^32`); `tobytes` /
`frombuffer` are pure memory copies in the fixed native little-endian
order, so modelling elements as bit patterns is exact.
`astype(np.float32)` on an already-float32 array is the identity. -/

namespace Embeddings

/-- The little-endian 4-byte layout of one float32 bit pattern. -/
def wordToBytesLE (w : Nat) : List Nat :=
  [w % 256, w / 256 % 256, w / 65536 % 256, w / 16777216 % 256]

/-- `vector_to_blob(vector)`: `vector.astype(np.float32).tobytes()`. -/
def vector_to_blob (v : List Nat) : List Nat :=
  (v.map wordToBytesLE).flatten

/-- `blob_to_vector(blob)`: `np.frombuffer(blob, dtype=np.float32)` —
reassemble consecutive 4-byte groups into float32 bit patterns. -/
def blob_to_vector : List Nat → List Nat
  | b0 :: b1 :: b2 :: b3 :: rest =>
      (b0 + b1 * 256 + b2 * 65536 + b3 * 16777216) :: blob_to_vector rest
  | _ => []

/-- One row of the `embeddings` table. -/
structure EmbRow where
  id : String
  memory_id : String
  model_name : String
  vector : List Nat
  dimensions : Nat
  created_at : Int
deriving DecidableEq, Repr

/-- The columns of a `memories` row that the embedding store touches. -/
structure MemoryRow where
  id : String
  content : String
  context : Option String
  has_embedding : Bool
deriving DecidableEq, Repr

/-- The database the embedding store touches. -/
structure EmbDb where
  embeddings : List EmbRow
  memories : List MemoryRow
deriving DecidableEq, Repr

/-- Modelled from the spec: `database/schema.py` is absent from the source
snapshot, and with it the `embeddings` table's DDL.  Spec §3: `memory_id`
is unique (insert-or-replace semantics), `id` is the primary key.  SQLite
`INSERT OR REPLACE` deletes every row conflicting with the new row on any
uniqueness constraint, then inserts the new row. -/
def insertOrReplaceEmbedding (rows : List EmbRow) (row : EmbRow) : List EmbRow :=
  rows.filter (fun r => !(r.id == row.id || r.memory_id == row.memory_id)) ++ [row]

/-- `UPDATE memories SET has_embedding = 1 WHERE id = ?`. -/
def setHasEmbedding (mid : String) (ms : List MemoryRow) : List MemoryRow :=
  ms.map (fun m => if m.id = mid then { m with has_embedding := true } else m)

/-- `store_embedding(conn, memory_id, vector, model_name)`: insert-or-replace
the embedding row (fresh id, `dimensions = len(vector)`), set the owning
memory's flag, commit; returns the embedding id. -/
def store_embedding (db : EmbDb) (newId : String) (memory_id : String)
    (vector : List Nat) (model_name : String) (nowMs : Int) : EmbDb × String :=
  let row : EmbRow :=
    { id := newId, memory_id := memory_id, model_name := model_name
    , vector := vector, dimensions := vector.length, created_at := nowMs }
  ({ embeddings := insertOrReplaceEmbedding db.embeddings row
   , memories := setHasEmbedding memory_id db.memories }, newId)

/-- `get_memories_without_embeddings(conn, limit)`:
`SELECT id, content, context FROM memories WHERE has_embedding = 0 LIMIT ?`
(no ORDER BY: table order). -/
def get_memories_without_embeddings (db : EmbDb) (limit : Nat) :
    List (String × String × Option String) :=
  ((db.memories.filter (fun m => !m.has_embedding)).take limit).map
    (fun m => (m.id, m.content, m.context))

/-- The embedding input text: content, with `"\n\nContext: "` and the
context appended when the context is present and non-empty (Python
truthiness of `if context:`). -/
def buildText (content : String) (context : Option String) : String :=
  match context with
  | some c => if c.isEmpty then content else content ++ "\n\nContext: " ++ c
  | none => content

/-- The ids of the memories still lacking an embedding, in table order. -/
def flag0Ids (db : EmbDb) : List String :=
  (db.memories.filter (fun m => !m.has_embedding)).map MemoryRow.id

/-- The number of memories with `has_embedding = 0`. -/
def flag0Count (db : EmbDb) : Nat := (flag0Ids db).length

/-- The per-batch store loop of `backfill_embeddings`: for each selected
memory, one generated vector (`generate_embeddings_batch` under the
precondition that generation succeeds, modelled by the pure `gen`) is
stored via `store_embedding`; `n` counts stores (`total_generated`) and
numbers the fresh embedding ids. -/
def storeBatch (gen : String → List Nat) (model_name : String)
    (idOf : Nat → String) (nowMs : Int) :
    EmbDb → List (String × String × Option String) → Nat → EmbDb × Nat
  | db, [], n => (db, n)
  | db, (mid, content, context) :: rest, n =>
    let db' := (store_embedding db (idOf n) mid
      (gen (buildText content context)) model_name nowMs).1
    storeBatch gen model_name idOf nowMs db' rest (n + 1)

/-- `has_embedding = 0` survivors after one store: exactly the previous
survivors whose id differs from the stored memory id. -/
theorem flag0Ids_setHasEmbedding (mid : String) (ms : List MemoryRow) :
    (ms.map (fun m => if m.id = mid then { m with has_embedding := true } else m)
      |>.filter (fun m => !m.has_embedding)).map MemoryRow.id
    = ((ms.filter (fun m => !m.has_embedding)).map MemoryRow.id).filter
        (fun i => !(i == mid)) := by
  induction ms with
  | nil => rfl
  | cons m rest ih =>
    by_cases hid : m.id = mid
    · by_cases hfl : m.has_embedding
      · simp [hid, hfl, List.filter, ih]
      · simp only [List.map_cons, hid, if_pos rfl, List.filter]
        simp [hfl, ih, hid]
    · by_cases hfl : m.has_embedding
      · simp [hid, hfl, List.filter, ih]
      · simp [hid, hfl, List.filter, ih]

/-- Restatement of `flag0Ids_setHasEmbedding` at the `store_embedding`
level. -/
theorem flag0Ids_store (db : EmbDb) (newId mid : String) (v : List Nat)
    (mn : String) (t : Int) :
    flag0Ids (store_embedding db newId mid v mn t).1
      = (flag0Ids db).filter (fun i => !(i == mid)) := by
  simpa [flag0Ids, store_embedding, setHasEmbedding] using
    flag0Ids_setHasEmbedding mid db.memories

theorem length_filter_ne_lt {a : String} {l : List String} (h : a ∈ l) :
    (l.filter (fun i => !(i == a))).length < l.length := by
  induction l with
  | nil => cases h
  | cons x xs ih =>
    rcases List.mem_cons.mp h with rfl | hx
    · simp only [List.filter, beq_self_eq_true, Bool.not_true]
      exact Nat.lt_succ_of_le (List.length_filter_le _ _)
    · by_cases hxa : x == a
      · simp only [List.filter, hxa, Bool.not_true]
        exact Nat.lt_succ_of_lt (ih hx)
      · simp only [List.filter, hxa, Bool.not_false]
        exact Nat.succ_lt_succ (ih hx)

/-- Storing a batch never increases the number of unembedded memories. -/
theorem flag0Count_storeBatch_le (gen : String → List Nat) (mn : String)
    (idOf : Nat → String) (t : Int) :
    ∀ (batch : List (String × String × Option String)) (db : EmbDb) (n : Nat),
      flag0Count (storeBatch gen mn idOf t db batch n).1 ≤ flag0Count db := by
  intro batch
  induction batch with
  | nil => intro db n; simp [storeBatch]
  | cons hd rest ih =>
    intro db n
    obtain ⟨mid, content, context⟩ := hd
    refine le_trans (ih _ _) ?_
    simp only [flag0Count, flag0Ids_store]
    exact List.length_filter_le _ _

/-- Storing a nonempty batch whose first memory is still unembedded strictly
decreases the number of unembedded memories. -/
theorem flag0Count_storeBatch_lt (gen : String → List Nat) (mn : String)
    (idOf : Nat → String) (t : Int) (db : EmbDb)
    (mid content : String) (context : Option String)
    (rest : List (String × String × Option String)) (n : Nat)
    (hmid : mid ∈ flag0Ids db) :
    flag0Count (storeBatch gen mn idOf t db ((mid, content, context) :: rest) n).1
      < flag0Count db := by
  simp only [storeBatch]
  refine lt_of_le_of_lt (flag0Count_storeBatch_le gen mn idOf t rest _ _) ?_
  simp only [flag0Count, flag0Ids_store]
  exact length_filter_ne_lt hmid

/-- The ids selected by `get_memories_without_embeddings` are the first
`limit` ids still lacking an embedding. -/
theorem mids_get_memories (db : EmbDb) (limit : Nat) :
    (get_memories_without_embeddings db limit).map Prod.fst
      = (flag0Ids db).take limit := by
  simp only [get_memories_without_embeddings, flag0Ids, List.map_take,
    List.map_map]
  rfl

/-- The loop of `backfill_embeddings`: select a batch of unembedded
memories, stop when none remain, otherwise embed and store the batch and
loop.  Terminates because each pass strictly shrinks the set of unembedded
memories. -/
def backfillLoop (gen : String → List Nat) (model_name : String)
    (idOf : Nat → String) (nowMs : Int) (batch_size : Nat)
    (db : EmbDb) (n : Nat) : EmbDb × Nat :=
  match hb : get_memories_without_embeddings db batch_size with
  | [] => (db, n)
  | (mid, content, context) :: rest =>
    let r := storeBatch gen model_name idOf nowMs db
      ((mid, content, context) :: rest) n
    backfillLoop gen model_name idOf nowMs batch_size r.1 r.2
termination_by flag0Count db
decreasing_by
  refine flag0Count_storeBatch_lt gen model_name idOf nowMs db mid content context rest n ?_
  have : mid ∈ (get_memories_without_embeddings db batch_size).map Prod.fst := by
    rw [hb]; exact List.mem_cons_self _ _
  rw [mids_get_memories] at this
  exact List.mem_of_mem_take this

/-- `backfill_embeddings(conn, batch_size)`: run the loop from a zero
`total_generated`; returns the final state and the number of embeddings
generated. -/
def backfill_embeddings (gen : String → List Nat) (model_name : String)
    (idOf : Nat → String) (nowMs : Int) (db : EmbDb) (batch_size : Nat) :
    EmbDb × Nat :=
  backfillLoop gen model_name idOf nowMs batch_size db 0

end Embeddings

/-! ## Keyword search -/

namespace Search

/-- The memory columns keyword search reads. -/
structure SearchMemory where
  id : String
  content : String
  type : String
  status : String
  importance_score : Int
  last_accessed : Int
  tags : List String
deriving DecidableEq, Repr

/-- Ranking order: descending relevance score, ties broken by
`last_accessed` descending. -/
def rankBefore (a b : SearchMemory × Int) : Bool :=
  if b.2 < a.2 then true
  else if a.2 < b.2 then false
  else decide (b.1.last_accessed ≤ a.1.last_accessed)

/-- Modelled from the spec: `src/omni_cortex/search/keyword.py` is absent
from the source snapshot (only its tests and its hybrid-mode caller are).
Spec §4.6, keyword mode: query the synchronized inverted index with a
BM25-family relevance function; `include_archived=false` (the default)
excludes `status=archived` memories; apply the type/tags/min-importance
filters; order by descending relevance score, ties broken by
`last_accessed` descending, up to `limit` results.  The inverted-index
match and the BM25-family score are abstract parameters (`ftsMatch`,
`bm25`); the filters and the ordering are concrete. -/
def keyword_search (ftsMatch : String → SearchMemory → Bool)
    (bm25 : String → SearchMemory → Int) (memories : List SearchMemory)
    (query : String) (type_filter : Option String)
    (tags_filter : Option (List String)) (min_importance : Option Int)
    (include_archived : Bool) (limit : Nat) : List (SearchMemory × Int) :=
  let eligible := memories.filter (fun m =>
    ftsMatch query m
    && (include_archived || !(m.status == "archived"))
    && (match type_filter with | some t => m.type == t | none => true)
    && (match tags_filter with
        | some ts => ts.all (fun t => m.tags.contains t)
        | none => true)
    && (match min_importance with
        | some mi => decide (mi ≤ m.importance_score)
        | none => true))
  ((eligible.map (fun m => (m, bm25 query m))).mergeSort rankBefore).take limit

end Search

/-! ## Claim theorems -/

/-- Reassembling the four little-endian bytes of a 32-bit pattern gives the
pattern back. -/
theorem word32_le_roundtrip (w : Nat) (h : w < 4294967296) :
    w % 256 + w / 256 % 256 * 256 + w / 65536 % 256 * 65536
      + w / 16777216 % 256 * 16777216 = w := by
  omega

/-- C4: for every float32 vector `v` (elementwise 32-bit patterns),
`blob_to_vector (vector_to_blob v) = v` exactly, bit for bit — the
fixed-width little-endian float32 serialization and its deserialization
form a lossless round trip. -/
theorem blob_to_vector_vector_to_blob (v : List Nat)
    (h : ∀ x ∈ v, x < 4294967296) :
    Embeddings.blob_to_vector (Embeddings.vector_to_blob v) = v := by
  induction v with
  | nil => rfl
  | cons w ws ih =>
    have hw : w < 4294967296 := h w (List.mem_cons_self _ _)
    have hws : ∀ x ∈ ws, x < 4294967296 :=
      fun x hx => h x (List.mem_cons_of_mem _ hx)
    show Embeddings.blob_to_vector
      ((Embeddings.wordToBytesLE w :: ws.map Embeddings.wordToBytesLE).flatten) = w :: ws
    rw [List.flatten_cons]
    show Embeddings.blob_to_vector
      (w % 256 :: w / 256 % 256 :: w / 65536 % 256 :: w / 16777216 % 256 ::
        (ws.map Embeddings.wordToBytesLE).flatten) = w :: ws
    rw [Embeddings.blob_to_vector]
    rw [word32_le_roundtrip w hw]
    exact congrArg (w :: ·) (ih hws)

/-- Witness for C4 at the concrete vector `[0, 1, 4294967295]`. -/
theorem blob_to_vector_vector_to_blob_witness :
    (∀ x ∈ [0, 1, 4294967295], x < 4294967296) ∧
    Embeddings.blob_to_vector (Embeddings.vector_to_blob [0, 1, 4294967295])
      = [0, 1, 4294967295] :=
  ⟨by decide, blob_to_vector_vector_to_blob [0, 1, 4294967295] (by decide)⟩

/-- C2 (failing-input evaluation): `apply_migration` is *not* atomic.  On a
database whose `activities` table already has the `command_scope` column
but not `command_name` (e.g. left behind by an earlier interrupted run of
this very function), applying migration `"1.1"` fails on its second
statement — yet the first statement's `command_name` column stays
committed and no `schema_migrations` row is written, so the database is
not in its pre-migration state.  `executescript` gives each script
statement its own implicit commit. -/
theorem apply_migration_partial_commit :
    Migrations.apply_migration
        ⟨⟨["command_scope"], []⟩, ["1.0"]⟩ "1.1" Migrations.MIGRATION_1_1
      = (⟨⟨["command_scope", "command_name"], []⟩, ["1.0"]⟩, false)
    ∧ (⟨⟨["command_scope", "command_name"], []⟩, ["1.0"]⟩ : Migrations.MigDb)
        ≠ ⟨⟨["command_scope"], []⟩, ["1.0"]⟩ := by
  exact ⟨rfl, by decide⟩

/-- C10: for every hook invocation whose `tool_name` contains `"cortex_"`
or `"omni-cortex"`, both logging hooks return the empty JSON reply and
leave the whole persistent state — activity rows, session rows, session
marker file — exactly unchanged, for every failure oracle. -/
theorem hooks_skip_own_tools :
    (∀ (fail : DbFail) (st : HookState) (input : HookInput)
        (nowMs : Int) (sr ar pp : String),
      isCortexTool input.tool_name = true →
      preToolUseMain fail st (.parsed input) nowMs sr ar pp = (st, emptyJson))
    ∧ (∀ (fail : DbFail) (st : HookState) (input : PostInput)
        (nowMs : Int) (sr ar pp : String),
      isCortexTool input.tool_name = true →
      postToolUseMain fail st (.parsed input) nowMs sr ar pp = (st, emptyJson)) := by
  constructor
  · intro fail st input nowMs sr ar pp h
    simp [preToolUseMain, preMainBody, h]
  · intro fail st input nowMs sr ar pp h
    simp [postToolUseMain, postMainBody, h]

/-- Witness for C10: the hooks skip `mcp__omni-cortex__cortex_remember`
(state taken empty, both failure points armed). -/
theorem hooks_skip_own_tools_witness :
    preToolUseMain ⟨some "boom", some "boom"⟩ ⟨⟨[], []⟩, none⟩
        (.parsed ⟨some "mcp__omni-cortex__cortex_remember", JVal.null, none⟩)
        0 "r" "a" "/p"
      = (⟨⟨[], []⟩, none⟩, emptyJson)
    ∧ postToolUseMain ⟨some "boom", some "boom"⟩ ⟨⟨[], []⟩, none⟩
        (.parsed ⟨some "mcp__omni-cortex__cortex_remember", JVal.null, JVal.null,
          none, false⟩)
        0 "r" "a" "/p"
      = (⟨⟨[], []⟩, none⟩, emptyJson) :=
  ⟨hooks_skip_own_tools.1 _ _ _ _ _ _ _ (by decide),
   hooks_skip_own_tools.2 _ _ _ _ _ _ _ (by decide)⟩

/-- C7: session continuation vs. creation is decided by the marker's age
against the fixed 4-hour timeout: (a) a marker younger than the timeout is
reused — same session id, activity clock refreshed, no new session row;
(b) a marker at or past the timeout is superseded by a fresh session with
the current timestamp in its id; (c) an absent marker and (d) a marker
without a readable `last_activity_at` likewise create a fresh session;
(e) starting a session, waiting at least the timeout, and starting again
yields a second, distinct session id. -/
theorem get_or_create_session_timeout :
    (∀ (st : HookState) (sd : SessionData) (t nowMs : Int) (rand pp : String),
      st.sessionFile = some sd → sd.last_activity_at = some t →
      nowMs - t < SESSION_TIMEOUT_SECONDS * 1000 →
      get_or_create_session st nowMs rand pp
        = (sd.session_id,
           { st with sessionFile := some { sd with last_activity_at := some nowMs } }))
    ∧ (∀ (st : HookState) (sd : SessionData) (t nowMs : Int) (rand pp : String),
      st.sessionFile = some sd → sd.last_activity_at = some t →
      SESSION_TIMEOUT_SECONDS * 1000 ≤ nowMs - t →
      (get_or_create_session st nowMs rand pp).1 = ⟨nowMs, rand⟩)
    ∧ (∀ (st : HookState) (nowMs : Int) (rand pp : String),
      st.sessionFile = none →
      (get_or_create_session st nowMs rand pp).1 = ⟨nowMs, rand⟩)
    ∧ (∀ (st : HookState) (sd : SessionData) (nowMs : Int) (rand pp : String),
      st.sessionFile = some sd → sd.last_activity_at = none →
      (get_or_create_session st nowMs rand pp).1 = ⟨nowMs, rand⟩)
    ∧ (∀ (st : HookState) (t0 t1 : Int) (r0 r1 pp : String),
      st.sessionFile = none →
      SESSION_TIMEOUT_SECONDS * 1000 ≤ t1 - t0 →
      (get_or_create_session
          (get_or_create_session st t0 r0 pp).2 t1 r1 pp).1
        ≠ (get_or_create_session st t0 r0 pp).1) := by
  refine ⟨?_, ?_, ?_, ?_, ?_⟩
  · intro st sd t nowMs rand pp hfile hlast hyoung
    simp [get_or_create_session, hfile, is_session_valid, hlast, hyoung]
  · intro st sd t nowMs rand pp hfile hlast hold
    have : ¬ (nowMs - t < SESSION_TIMEOUT_SECONDS * 1000) := not_lt.mpr hold
    simp [get_or_create_session, hfile, is_session_valid, hlast, this]
  · intro st nowMs rand pp hfile
    simp [get_or_create_session, hfile]
  · intro st sd nowMs rand pp hfile hlast
    simp [get_or_create_session, hfile, is_session_valid, hlast]
  · intro st t0 t1 r0 r1 pp hfile hwait
    simp only [get_or_create_session, hfile, is_session_valid]
    have h01 : ¬ (t1 - t0 < SESSION_TIMEOUT_SECONDS * 1000) := not_lt.mpr hwait
    have hc : ¬ ((decide (t1 - t0 < SESSION_TIMEOUT_SECONDS * 1000)) = true) := by
      simpa using h01
    rw [if_neg hc]
    have ht : t0 ≠ t1 := by
      simp only [SESSION_TIMEOUT_SECONDS] at hwait
      omega
    simp only [ne_eq, SessId.mk.injEq, not_and]
    intro h
    exact absurd h.symm ht

/-- Witness for C7: marker absent at time 0, second start at the 4-hour
mark gets a distinct id (and the fresh-marker clauses at concrete
inputs). -/
theorem get_or_create_session_timeout_witness :
    (get_or_create_session ⟨⟨[], []⟩, none⟩ 0 "aaaa" "/p").1 = ⟨0, "aaaa"⟩
    ∧ (get_or_create_session
        (get_or_create_session ⟨⟨[], []⟩, none⟩ 0 "aaaa" "/p").2
        14400000 "aaaa" "/p").1
      ≠ (get_or_create_session ⟨⟨[], []⟩, none⟩ 0 "aaaa" "/p").1 :=
  ⟨get_or_create_session_timeout.2.2.1 _ _ _ _ rfl,
   get_or_create_session_timeout.2.2.2.2 _ 0 14400000 "aaaa" "aaaa" "/p" rfl
     (by norm_num [SESSION_TIMEOUT_SECONDS])⟩

/-- Every row surviving `INSERT OR REPLACE` with the new row's `memory_id`
is the new row itself. -/
theorem insertOrReplace_filter_memory_id (rows : List Embeddings.EmbRow)
    (row : Embeddings.EmbRow) :
    (Embeddings.insertOrReplaceEmbedding rows row).filter
        (fun r => r.memory_id == row.memory_id) = [row] := by
  unfold Embeddings.insertOrReplaceEmbedding
  rw [List.filter_append]
  have h1 : (rows.filter
      (fun r => !(r.id == row.id || r.memory_id == row.memory_id))).filter
      (fun r => r.memory_id == row.memory_id) = [] := by
    rw [List.filter_filter]
    refine List.filter_eq_nil_iff.mpr ?_
    intro r _
    by_cases hm : r.memory_id == row.memory_id <;> simp [hm]
  rw [h1]
  simp

/-- `UPDATE memories SET has_embedding = 1 WHERE id = ?` leaves every row
with that id flagged. -/
theorem setHasEmbedding_flag (mid : String) (ms : List Embeddings.MemoryRow) :
    ∀ m ∈ Embeddings.setHasEmbedding mid ms, m.id = mid →
      m.has_embedding = true := by
  intro m hm hid
  rcases List.mem_map.mp hm with ⟨m0, _, rfl⟩
  by_cases h0 : m0.id = mid
  · simp [h0]
  · simp only [if_neg h0] at hid ⊢
    exact absurd hid h0

/-- C3: storing an embedding twice for the same `memory_id` leaves exactly
one embedding row referencing that memory — the second call's row — and
after every `store_embedding` call every `memories` row with the stored id
has `has_embedding = 1`; the at-most-one-embedding-per-memory invariant is
preserved by every store. -/
theorem store_embedding_upsert (db : Embeddings.EmbDb)
    (id1 id2 mid : String) (v1 v2 : List Nat) (mn1 mn2 : String) (t1 t2 : Int) :
    ((Embeddings.store_embedding
        (Embeddings.store_embedding db id1 mid v1 mn1 t1).1
        id2 mid v2 mn2 t2).1.embeddings.filter
          (fun r => r.memory_id == mid)).map (fun r => (r.id, r.vector))
      = [(id2, v2)]
    ∧ ∀ m ∈ (Embeddings.store_embedding db id1 mid v1 mn1 t1).1.memories,
        m.id = mid → m.has_embedding = true := by
  constructor
  · have := insertOrReplace_filter_memory_id
      (Embeddings.store_embedding db id1 mid v1 mn1 t1).1.embeddings
      { id := id2, memory_id := mid, model_name := mn2
      , vector := v2, dimensions := v2.length, created_at := t2 }
    simp only [Embeddings.store_embedding] at this ⊢
    rw [this]
    rfl
  · simpa [Embeddings.store_embedding] using
      setHasEmbedding_flag mid db.memories

/-- Witness for C3 at a concrete one-memory database: two stores leave the
single row of the second store, and the concrete memory row with the
stored id is flagged. -/
theorem store_embedding_upsert_witness :
    ((Embeddings.store_embedding
        (Embeddings.store_embedding ⟨[], [⟨"m1", "c", none, false⟩]⟩
          "e1" "m1" [1] "all-MiniLM-L6-v2" 0).1
        "e2" "m1" [2] "all-MiniLM-L6-v2" 5).1.embeddings.filter
          (fun r => r.memory_id == "m1")).map (fun r => (r.id, r.vector))
      = [("e2", [2])]
    ∧ (⟨"m1", "c", none, true⟩ : Embeddings.MemoryRow).has_embedding = true := by
  have h := store_embedding_upsert ⟨[], [⟨"m1", "c", none, false⟩]⟩
    "e1" "e2" "m1" [1] [2] "all-MiniLM-L6-v2" "all-MiniLM-L6-v2" 0 5
  exact ⟨h.1, h.2 ⟨"m1", "c", none, true⟩ (by decide) rfl⟩

/-- A successful `apply_migration` appends exactly its version to the
ledger. -/
theorem apply_migration_ledger {db db' : Migrations.MigDb} {v : String}
    {s : List Migrations.Stmt}
    (h : Migrations.apply_migration db v s = (db', true)) :
    db'.schema_migrations = db.schema_migrations ++ [v] := by
  unfold Migrations.apply_migration at h
  rcases hx : Migrations.executescript db.schema s with ⟨s', ok⟩
  rw [hx] at h
  cases ok
  · simp at h
  · simp only [if_true] at h
    rw [← (Prod.mk.injEq ..).mp h |>.1]

/-- A database whose recorded version is already the newest migration
version is a fixed point of `migrate`. -/
theorem migrate_at_latest (db : Migrations.MigDb)
    (h : Migrations.get_current_version db = some "1.2") :
    Migrations.migrate db = (db, "1.2", [], true) := by
  simp only [Migrations.migrate, h]
  rfl

/-- C5: `migrate` is idempotent — once a run of `migrate` completes without
raising, a second run returns the same recorded version, applies no
migration (empty applied list, database unchanged), and does not raise;
only migrations with version strictly greater than the recorded version
are ever applied. -/
theorem migrate_idempotent (db : Migrations.MigDb)
    (hok : (Migrations.migrate db).2.2.2 = true) :
    Migrations.migrate (Migrations.migrate db).1
      = ((Migrations.migrate db).1, (Migrations.migrate db).2.1, [], true) := by
  rcases hcv : Migrations.get_current_version db with _ | cur
  · have h1 : Migrations.migrate db
        = ({ schema := Migrations.baselineSchema
           , schema_migrations :=
               db.schema_migrations ++ [Migrations.SCHEMA_VERSION] },
           Migrations.SCHEMA_VERSION, [], true) := by
      simp only [Migrations.migrate, hcv]
    rw [h1]
    exact migrate_at_latest _ (by
      simp [Migrations.get_current_version, Migrations.SCHEMA_VERSION])
  · have hm : Migrations.migrate db = Migrations.migrateLoop ["1.1", "1.2"] cur db := by
      simp only [Migrations.migrate, hcv]
      rfl
    rw [hm] at hok ⊢
    cases h11 : Migrations.pyStrLt cur "1.1"
    · cases h12 : Migrations.pyStrLt cur "1.2"
      · have hr : Migrations.migrateLoop ["1.1", "1.2"] cur db
            = (db, cur, [], true) := by
          simp [Migrations.migrateLoop, h11, h12]
        rw [hr]
        rw [hm, hr]
      · rcases hb : Migrations.apply_migration db "1.2"
            ((Migrations.MIGRATIONS.lookup "1.2").getD []) with ⟨db2, ok2⟩
        cases ok2
        · rw [show Migrations.migrateLoop ["1.1", "1.2"] cur db
              = (db2, cur, ["1.2"], false) from by
            simp [Migrations.migrateLoop, h11, h12, hb]] at hok
          simp at hok
        · have hr : Migrations.migrateLoop ["1.1", "1.2"] cur db
              = (db2, "1.2", ["1.2"], true) := by
            simp [Migrations.migrateLoop, h11, h12, hb]
          rw [hr]
          exact migrate_at_latest _ (by
            simp [Migrations.get_current_version, apply_migration_ledger hb])
    · rcases ha : Migrations.apply_migration db "1.1"
          ((Migrations.MIGRATIONS.lookup "1.1").getD []) with ⟨db1, ok1⟩
      cases ok1
      · rw [show Migrations.migrateLoop ["1.1", "1.2"] cur db
            = (db1, cur, ["1.1"], false) from by
          simp [Migrations.migrateLoop, h11, ha]] at hok
        simp at hok
      · rcases hb : Migrations.apply_migration db1 "1.2"
            ((Migrations.MIGRATIONS.lookup "1.2").getD []) with ⟨db2, ok2⟩
        cases ok2
        · rw [show Migrations.migrateLoop ["1.1", "1.2"] cur db
              = (db2, "1.1", ["1.1", "1.2"], false) from by
            simp [Migrations.migrateLoop, h11, ha,
              show Migrations.pyStrLt "1.1" "1.2" = true from rfl, hb]] at hok
          simp at hok
        · have hr : Migrations.migrateLoop ["1.1", "1.2"] cur db
              = (db2, "1.2", ["1.1", "1.2"], true) := by
            simp [Migrations.migrateLoop, h11, ha,
              show Migrations.pyStrLt "1.1" "1.2" = true from rfl, hb]
          rw [hr]
          exact migrate_at_latest _ (by
            simp [Migrations.get_current_version, apply_migration_ledger hb])

/-- Witness for C5 on the empty (brand-new) database: the first run
records version `1.2`; the second run is the identity. -/
theorem migrate_idempotent_witness :
    (Migrations.migrate ⟨⟨[], []⟩, []⟩).2.2.2 = true
    ∧ Migrations.migrate (Migrations.migrate ⟨⟨[], []⟩, []⟩).1
      = ((Migrations.migrate ⟨⟨[], []⟩, []⟩).1,
         (Migrations.migrate ⟨⟨[], []⟩, []⟩).2.1, [], true) :=
  ⟨rfl, migrate_idempotent ⟨⟨[], []⟩, []⟩ rfl⟩

/-- Redaction rewrites each field in place: looking a key up after
redaction finds the redacted entry of what was there before. -/
theorem lookup_redactFields : ∀ (f : JFields) (k : String),
    (redactFields f).lookup k = (f.lookup k).map (redactEntry k)
  | JFields.nil, _ => rfl
  | JFields.cons k0 v rest, k => by
    by_cases h : k0 = k
    · subst h
      simp [redactFields, JFields.lookup]
    · simp [redactFields, JFields.lookup, h, lookup_redactFields rest k]

/-- Session handling never touches the `activities` table. -/
theorem get_or_create_session_activities (st : HookState) (n : Int)
    (r p : String) :
    (get_or_create_session st n r p).2.db.activities = st.db.activities := by
  unfold get_or_create_session create_session_in_db
  rcases st.sessionFile with _ | sd
  · dsimp only
    split <;> rfl
  · dsimp only
    split
    · rfl
    · split <;> rfl

/-- C1: every activity row the pre-tool-use hook appends carries as its
persisted `tool_input` the sensitive-field-redacted serialization of the
payload; redaction replaces the value under every key matching the fixed
case-insensitive patterns by the `[REDACTED]` marker, keeps values under
non-matching keys unchanged when scalar, and recurses into nested maps and
lists of maps; concretely, logging a `tool_input` of `api_key: "sk-123"`
with `path: "/f"` persists `api_key` as the redaction marker and `path`
unchanged. -/
theorem hook_activity_redaction :
    (∀ (fail : DbFail) (st : HookState) (parse : ParseOutcome HookInput)
        (nowMs : Int) (sr ar pp : String) (r : ActRow),
      r ∈ (preToolUseMain fail st parse nowMs sr ar pp).1.db.activities →
      r ∉ st.db.activities →
      ∃ input, parse = ParseOutcome.parsed input ∧
        r.tool_input = some (persistedPayload input.tool_input))
    ∧ (∀ (fail : DbFail) (st : HookState) (parse : ParseOutcome PostInput)
        (nowMs : Int) (sr ar pp : String) (r : ActRow),
      r ∈ (postToolUseMain fail st parse nowMs sr ar pp).1.db.activities →
      r ∉ st.db.activities →
      ∃ input, parse = ParseOutcome.parsed input ∧
        r.tool_input = some (persistedPayload input.tool_input) ∧
        r.tool_output = some (persistedPayload input.tool_output))
    ∧ (∀ (f : JFields) (k : String) (v : JVal),
        f.lookup k = some v → isSensitiveKey k = true →
        (redactFields f).lookup k = some REDACTED)
    ∧ (∀ (f : JFields) (k : String) (v : JVal),
        f.lookup k = some v → isSensitiveKey k = false → v.isScalar = true →
        (redactFields f).lookup k = some v)
    ∧ (∀ (f : JFields) (k : String) (g : JFields),
        f.lookup k = some (JVal.obj g) → isSensitiveKey k = false →
        (redactFields f).lookup k = some (JVal.obj (redactFields g)))
    ∧ (∀ (f : JFields) (k : String) (it : JItems),
        f.lookup k = some (JVal.arr it) → isSensitiveKey k = false →
        (redactFields f).lookup k = some (JVal.arr (redactItems it)))
    ∧ ((preToolUseMain noFail ⟨⟨[], []⟩, none⟩
          (.parsed ⟨some "Write",
            JVal.obj (JFields.cons "api_key" (JVal.str "sk-123")
              (JFields.cons "path" (JVal.str "/f") JFields.nil)), none⟩)
          1000 "r0" "a0" "/proj").1.db.activities.map ActRow.tool_input)
        = [some "\x7b\"api_key\": \"[REDACTED]\", \"path\": \"/f\"\x7d"] := by
  refine ⟨?_, ?_, ?_, ?_, ?_, ?_, ?_⟩
  · intro fail st parse nowMs sr ar pp r hr hnot
    cases parse with
    | empty =>
      simp only [preToolUseMain, preMainBody] at hr
      exact absurd hr hnot
    | invalid e =>
      simp only [preToolUseMain, preMainBody] at hr
      exact absurd hr hnot
    | parsed input =>
      refine ⟨input, rfl, ?_⟩
      by_cases hc : isCortexTool input.tool_name
      · simp only [preToolUseMain, preMainBody, hc, if_true] at hr
        exact absurd hr hnot
      · rcases he : fail.ensureExc with _ | e
        · rcases hi : fail.insertExc with _ | e2
          · simp only [preToolUseMain, preMainBody, hc, if_false, he, hi,
              Bool.false_eq_true] at hr
            rw [get_or_create_session_activities] at hr
            rcases List.mem_append.mp hr with hl | hr1
            · exact absurd hl hnot
            · rw [List.mem_singleton.mp hr1]
          · simp only [preToolUseMain, preMainBody, hc, if_false, he, hi,
              Bool.false_eq_true] at hr
            rw [get_or_create_session_activities] at hr
            exact absurd hr hnot
        · simp only [preToolUseMain, preMainBody, hc, if_false, he,
            Bool.false_eq_true] at hr
          exact absurd hr hnot
  · intro fail st parse nowMs sr ar pp r hr hnot
    cases parse with
    | empty =>
      simp only [postToolUseMain, postMainBody] at hr
      exact absurd hr hnot
    | invalid e =>
      simp only [postToolUseMain, postMainBody] at hr
      exact absurd hr hnot
    | parsed input =>
      refine ⟨input, rfl, ?_⟩
      by_cases hc : isCortexTool input.tool_name
      · simp only [postToolUseMain, postMainBody, hc, if_true] at hr
        exact absurd hr hnot
      · rcases he : fail.ensureExc with _ | e
        · rcases hi : fail.insertExc with _ | e2
          · simp only [postToolUseMain, postMainBody, hc, if_false, he, hi,
              Bool.false_eq_true] at hr
            rw [get_or_create_session_activities] at hr
            rcases List.mem_append.mp hr with hl | hr1
            · exact absurd hl hnot
            · rw [List.mem_singleton.mp hr1]
              exact ⟨rfl, rfl⟩
          · simp only [postToolUseMain, postMainBody, hc, if_false, he, hi,
              Bool.false_eq_true] at hr
            rw [get_or_create_session_activities] at hr
            exact absurd hr hnot
        · simp only [postToolUseMain, postMainBody, hc, if_false, he,
            Bool.false_eq_true] at hr
          exact absurd hr hnot
  · intro f k v hl hs
    rw [lookup_redactFields, hl]
    cases v <;> simp [redactEntry, hs]
  · intro f k v hl hs hscalar
    rw [lookup_redactFields, hl]
    cases v <;> simp_all [redactEntry, JVal.isScalar]
  · intro f k g hl hs
    rw [lookup_redactFields, hl]
    simp [redactEntry, hs]
  · intro f k it hl hs
    rw [lookup_redactFields, hl]
    simp [redactEntry, hs]
  · rfl

/-- Witness for C1: the concrete redacted lookups of the example
payload. -/
theorem hook_activity_redaction_witness :
    (redactFields (JFields.cons "api_key" (JVal.str "sk-123")
        (JFields.cons "path" (JVal.str "/f") JFields.nil))).lookup "api_key"
      = some REDACTED
    ∧ (redactFields (JFields.cons "api_key" (JVal.str "sk-123")
        (JFields.cons "path" (JVal.str "/f") JFields.nil))).lookup "path"
      = some (JVal.str "/f") :=
  ⟨hook_activity_redaction.2.2.1 _ "api_key" (JVal.str "sk-123") rfl (by decide),
   hook_activity_redaction.2.2.2.1 _ "path" (JVal.str "/f") rfl (by decide) rfl⟩

/-- C9: the activity-logging entry points never raise to their caller.
`cortex_log_activity` returns normally on every failure configuration —
an `init_database` or insert/commit exception is swallowed into an
`"Error logging activity: ..."` reply with the database unchanged, and the
success path returns the confirmation text; each hook `main` always prints
either the empty JSON reply or a best-effort `systemMessage` warning,
never propagating an exception. -/
theorem activity_logging_never_raises :
    (∀ (fail : ToolFail) (db : McpDb) (newId : String) (nowMs : Int)
        (params : ActivityCreate) (sid : Option String) (pp e : String),
      fail.initExc = some e →
      cortex_log_activity fail db newId nowMs params sid pp
        = (db, "Error logging activity: " ++ e))
    ∧ (∀ (fail : ToolFail) (db : McpDb) (newId : String) (nowMs : Int)
        (params : ActivityCreate) (sid : Option String) (pp e : String),
      fail.initExc = none → fail.writeExc = some e →
      cortex_log_activity fail db newId nowMs params sid pp
        = (db, "Error logging activity: " ++ e))
    ∧ (∀ (fail : ToolFail) (db : McpDb) (newId : String) (nowMs : Int)
        (params : ActivityCreate) (sid : Option String) (pp : String),
      fail.initExc = none → fail.writeExc = none →
      (cortex_log_activity fail db newId nowMs params sid pp).2
        = "Logged: " ++ newId ++ "\nType: " ++ params.event_type
          ++ "\nTool: " ++ (params.tool_name.getD "N/A")
          ++ "\nSuccess: " ++ (if params.success then "Yes" else "No"))
    ∧ (∀ (fail : DbFail) (st : HookState) (parse : ParseOutcome HookInput)
        (nowMs : Int) (sr ar pp : String),
      (preToolUseMain fail st parse nowMs sr ar pp).2 = emptyJson
      ∨ ∃ e, (preToolUseMain fail st parse nowMs sr ar pp).2
          = dumps (JVal.obj (JFields.cons "systemMessage"
              (JVal.str ("Cortex pre_tool_use: " ++ e)) JFields.nil)))
    ∧ (∀ (fail : DbFail) (st : HookState) (parse : ParseOutcome PostInput)
        (nowMs : Int) (sr ar pp : String),
      (postToolUseMain fail st parse nowMs sr ar pp).2 = emptyJson
      ∨ ∃ e, (postToolUseMain fail st parse nowMs sr ar pp).2
          = dumps (JVal.obj (JFields.cons "systemMessage"
              (JVal.str ("Cortex post_tool_use: " ++ e)) JFields.nil))) := by
  refine ⟨?_, ?_, ?_, ?_, ?_⟩
  · intro fail db newId nowMs params sid pp e he
    simp [cortex_log_activity, he]
  · intro fail db newId nowMs params sid pp e hi hw
    simp [cortex_log_activity, hi, hw]
  · intro fail db newId nowMs params sid pp hi hw
    simp [cortex_log_activity, hi, hw, create_activity]
  · intro fail st parse nowMs sr ar pp
    cases parse with
    | empty => exact Or.inl rfl
    | invalid e =>
      exact Or.inr ⟨e, rfl⟩
    | parsed input =>
      by_cases hc : isCortexTool input.tool_name
      · exact Or.inl (by simp [preToolUseMain, preMainBody, hc])
      · rcases he : fail.ensureExc with _ | e
        · rcases hi : fail.insertExc with _ | e2
          · exact Or.inl (by
              simp [preToolUseMain, preMainBody, hc, he, hi])
          · exact Or.inr ⟨e2, by
              simp [preToolUseMain, preMainBody, hc, he, hi]⟩
        · exact Or.inr ⟨e, by
            simp [preToolUseMain, preMainBody, hc, he]⟩
  · intro fail st parse nowMs sr ar pp
    cases parse with
    | empty => exact Or.inl rfl
    | invalid e =>
      exact Or.inr ⟨e, rfl⟩
    | parsed input =>
      by_cases hc : isCortexTool input.tool_name
      · exact Or.inl (by simp [postToolUseMain, postMainBody, hc])
      · rcases he : fail.ensureExc with _ | e
        · rcases hi : fail.insertExc with _ | e2
          · exact Or.inl (by
              simp [postToolUseMain, postMainBody, hc, he, hi])
          · exact Or.inr ⟨e2, by
              simp [postToolUseMain, postMainBody, hc, he, hi]⟩
        · exact Or.inr ⟨e, by
            simp [postToolUseMain, postMainBody, hc, he]⟩

/-- Witness for C9: a failing insert at a concrete input is swallowed into
the warning reply. -/
theorem activity_logging_never_raises_witness :
    cortex_log_activity ⟨none, some "disk I/O error"⟩ ⟨[], []⟩ "act_1" 0
        ⟨"decision", none, none, none, none, true, none, none, none⟩
        none "/p"
      = (⟨[], []⟩, "Error logging activity: disk I/O error") :=
  activity_logging_never_raises.2.1 ⟨none, some "disk I/O error"⟩ ⟨[], []⟩
    "act_1" 0 ⟨"decision", none, none, none, none, true, none, none, none⟩
    none "/p" "disk I/O error" rfl rfl

/-- C8: keyword search with `include_archived = false` (the default) never
returns a `status = archived` memory; with `include_archived = true` an
archived memory matching the query is eligible and returned (no other
filters, limit covering the candidate set). -/
theorem keyword_search_archived_filter :
    (∀ (ftsMatch : String → Search.SearchMemory → Bool)
        (bm25 : String → Search.SearchMemory → Int)
        (mems : List Search.SearchMemory) (q : String)
        (tf : Option String) (tg : Option (List String)) (mi : Option Int)
        (lim : Nat) (m : Search.SearchMemory) (p : Search.SearchMemory × Int),
      m.status = "archived" →
      p ∈ Search.keyword_search ftsMatch bm25 mems q tf tg mi false lim →
      p.1 ≠ m)
    ∧ (∀ (ftsMatch : String → Search.SearchMemory → Bool)
        (bm25 : String → Search.SearchMemory → Int)
        (mems : List Search.SearchMemory) (q : String) (lim : Nat)
        (m : Search.SearchMemory),
      m ∈ mems → ftsMatch q m = true → mems.length ≤ lim →
      (m, bm25 q m) ∈ Search.keyword_search ftsMatch bm25 mems q
        none none none true lim) := by
  constructor
  · intro ftsMatch bm25 mems q tf tg mi lim m p harch hp
    have hp1 : p ∈ ((mems.filter _).map (fun m => (m, bm25 q m))).mergeSort
        Search.rankBefore := List.mem_of_mem_take hp
    have hp2 := (List.mergeSort_perm _ Search.rankBefore).mem_iff.mp hp1
    rcases List.mem_map.mp hp2 with ⟨m1, hm1, rfl⟩
    have hpred := (List.mem_filter.mp hm1).2
    intro hcontra
    simp only at hcontra
    subst hcontra
    simp only [Bool.false_or, Bool.and_eq_true, Bool.not_eq_true] at hpred
    have : (m1.status == "archived") = true := by
      simp [harch]
    rw [this] at hpred
    exact absurd hpred.1.1.1.2 (by decide)
  · intro ftsMatch bm25 mems q lim m hm hfts hlim
    have hmem : m ∈ mems.filter (fun m =>
        ftsMatch q m
        && (true || !(m.status == "archived"))
        && true && true && true) := by
      refine List.mem_filter.mpr ⟨hm, ?_⟩
      simp [hfts]
    unfold Search.keyword_search
    have hscored : (m, bm25 q m) ∈ (mems.filter (fun m =>
        ftsMatch q m
        && (true || !(m.status == "archived"))
        && true && true && true)).map (fun m => (m, bm25 q m)) :=
      List.mem_map_of_mem _ hmem
    have hsorted := (List.mergeSort_perm
      ((mems.filter _).map (fun m => (m, bm25 q m))) Search.rankBefore).mem_iff.mpr
      hscored
    have hlen : (((mems.filter (fun m =>
        ftsMatch q m && (true || !(m.status == "archived"))
        && true && true && true)).map (fun m => (m, bm25 q m))).mergeSort
          Search.rankBefore).length ≤ lim := by
      rw [(List.mergeSort_perm _ _).length_eq, List.length_map]
      exact le_trans (List.length_filter_le _ _) hlim
    rw [List.take_of_length_le hlen]
    exact hsorted

/-- Witness for C8: a two-memory database where the archived memory is
excluded without the flag and returned with it. -/
theorem keyword_search_archived_filter_witness :
    ((⟨"m2", "t", "general", "archived", 50, 0, []⟩ : Search.SearchMemory), 1)
        ∈ Search.keyword_search (fun _ _ => true) (fun _ _ => 1)
          [⟨"m1", "t", "general", "fresh", 50, 0, []⟩,
           ⟨"m2", "t", "general", "archived", 50, 0, []⟩]
          "t" none none none true 2
    ∧ ∀ p ∈ Search.keyword_search (fun _ _ => true) (fun _ _ => 1)
          [⟨"m1", "t", "general", "fresh", 50, 0, []⟩,
           ⟨"m2", "t", "general", "archived", 50, 0, []⟩]
          "t" none none none false 2,
        p.1 ≠ (⟨"m2", "t", "general", "archived", 50, 0, []⟩ : Search.SearchMemory) := by
  constructor
  · exact keyword_search_archived_filter.2 (fun _ _ => true) (fun _ _ => 1)
      _ "t" 2 ⟨"m2", "t", "general", "archived", 50, 0, []⟩
      (by decide) rfl (by decide)
  · intro p hp
    exact keyword_search_archived_filter.1 (fun _ _ => true) (fun _ _ => 1)
      _ "t" none none none 2 _ p rfl hp

namespace Embeddings

/-- `total_generated` grows by exactly one per stored batch element. -/
theorem storeBatch_counter (gen : String → List Nat) (mn : String)
    (idOf : Nat → String) (t : Int) :
    ∀ (batch : List (String × String × Option String)) (db : EmbDb) (n : Nat),
      (storeBatch gen mn idOf t db batch n).2 = n + batch.length := by
  intro batch
  induction batch with
  | nil => intro db n; simp [storeBatch]
  | cons hd rest ih =>
    intro db n
    obtain ⟨mid, c, ctx⟩ := hd
    simp [storeBatch, ih]
    omega

/-- Setting the embedding flag keeps the table's id column. -/
theorem ids_setHasEmbedding (mid : String) (ms : List MemoryRow) :
    (setHasEmbedding mid ms).map MemoryRow.id = ms.map MemoryRow.id := by
  induction ms with
  | nil => rfl
  | cons m rest ih =>
    by_cases h : m.id = mid <;> simp [setHasEmbedding, h] <;>
      simpa [setHasEmbedding] using ih

/-- Storing a batch keeps the memory table's id column. -/
theorem ids_storeBatch (gen : String → List Nat) (mn : String)
    (idOf : Nat → String) (t : Int) :
    ∀ (batch : List (String × String × Option String)) (db : EmbDb) (n : Nat),
      (storeBatch gen mn idOf t db batch n).1.memories.map MemoryRow.id
        = db.memories.map MemoryRow.id := by
  intro batch
  induction batch with
  | nil => intro db n; simp [storeBatch]
  | cons hd rest ih =>
    intro db n
    obtain ⟨mid, c, ctx⟩ := hd
    rw [storeBatch, ih]
    exact ids_setHasEmbedding mid db.memories

/-- After storing a batch, the surviving unembedded ids are the previous
ones outside the batch. -/
theorem flag0Ids_storeBatch_eq (gen : String → List Nat) (mn : String)
    (idOf : Nat → String) (t : Int) :
    ∀ (batch : List (String × String × Option String)) (db : EmbDb) (n : Nat),
      flag0Ids (storeBatch gen mn idOf t db batch n).1
        = (flag0Ids db).filter
            (fun i => (batch.map Prod.fst).all (fun x => !(i == x))) := by
  intro batch
  induction batch with
  | nil =>
    intro db n
    simp [storeBatch]
  | cons hd rest ih =>
    intro db n
    obtain ⟨mid, c, ctx⟩ := hd
    rw [storeBatch, ih, flag0Ids_store, List.filter_filter]
    refine List.filter_congr ?_
    intro i _
    simp [List.all_cons, Bool.and_comm]

/-- On a duplicate-free list, keeping the elements outside the first `k` is
dropping the first `k`. -/
theorem filter_all_ne_take :
    ∀ (l : List String), l.Nodup → ∀ (k : Nat),
      l.filter (fun i => (l.take k).all (fun x => !(i == x))) = l.drop k := by
  intro l
  induction l with
  | nil => intro _ k; simp
  | cons x xs ih =>
    intro hnd k
    cases k with
    | zero => simp
    | succ k =>
      have hx : x ∉ xs := (List.nodup_cons.mp hnd).1
      have hxs : xs.Nodup := (List.nodup_cons.mp hnd).2
      rw [List.take_succ_cons, List.drop_succ_cons]
      rw [List.filter_cons]
      have hpx : ((x :: xs.take k).all (fun y => !(x == y))) = false := by
        simp [List.all_cons]
      rw [hpx]
      simp only [Bool.false_eq_true, if_false]
      have hcongr : xs.filter (fun i => (x :: xs.take k).all (fun y => !(i == y)))
          = xs.filter (fun i => (xs.take k).all (fun y => !(i == y))) := by
        refine List.filter_congr ?_
        intro i hi
        have hne : i ≠ x := fun hcontra => hx (hcontra ▸ hi)
        simp [List.all_cons, hne]
      rw [hcongr, ih hxs k]

/-- A memory row that already has its flag set survives the flag update
unchanged. -/
theorem mem_setHasEmbedding_of_flag {m : MemoryRow} {ms : List MemoryRow}
    (hf : m.has_embedding = true) (hm : m ∈ ms) (mid : String) :
    m ∈ setHasEmbedding mid ms := by
  have hfix : (if m.id = mid then { m with has_embedding := true } else m) = m := by
    by_cases h : m.id = mid
    · obtain ⟨i, c, x, e⟩ := m
      simp only at hf
      simp [h, hf]
    · simp [h]
  unfold setHasEmbedding
  have hmap := List.mem_map_of_mem
    (fun m => if m.id = mid then { m with has_embedding := true } else m) hm
  simpa [hfix] using hmap

/-- A memory row that already has its flag set survives a whole stored
batch unchanged. -/
theorem mem_storeBatch_of_flag (gen : String → List Nat) (mn : String)
    (idOf : Nat → String) (t : Int) :
    ∀ (batch : List (String × String × Option String)) (db : EmbDb) (n : Nat)
      (m : MemoryRow), m.has_embedding = true → m ∈ db.memories →
      m ∈ (storeBatch gen mn idOf t db batch n).1.memories := by
  intro batch
  induction batch with
  | nil => intro db n m _ hm; simpa [storeBatch] using hm
  | cons hd rest ih =>
    intro db n m hf hm
    obtain ⟨mid, c, ctx⟩ := hd
    rw [storeBatch]
    exact ih _ _ m hf (mem_setHasEmbedding_of_flag hf hm mid)

/-- One unfolding of `backfillLoop`: no candidates — return. -/
theorem backfillLoop_empty (gen : String → List Nat) (mn : String)
    (idOf : Nat → String) (t : Int) (bs : Nat) (db : EmbDb) (n : Nat)
    (h : get_memories_without_embeddings db bs = []) :
    backfillLoop gen mn idOf t bs db n = (db, n) := by
  unfold backfillLoop
  split
  · rfl
  · rename_i mid c ctx rest heq
    rw [h] at heq
    cases heq

/-- One unfolding of `backfillLoop`: candidates present — store the batch
and loop. -/
theorem backfillLoop_step (gen : String → List Nat) (mn : String)
    (idOf : Nat → String) (t : Int) (bs : Nat) (db : EmbDb) (n : Nat)
    (h : get_memories_without_embeddings db bs ≠ []) :
    backfillLoop gen mn idOf t bs db n
      = backfillLoop gen mn idOf t bs
          (storeBatch gen mn idOf t db (get_memories_without_embeddings db bs) n).1
          (storeBatch gen mn idOf t db (get_memories_without_embeddings db bs) n).2 := by
  conv_lhs => rw [backfillLoop]
  split
  · rename_i heq
    exact absurd heq h
  · rename_i mid c ctx rest heq
    rw [heq]

/-- The loop invariant of `backfill_embeddings`: with a positive batch size
and duplicate-free memory ids, the loop clears every `has_embedding = 0`
flag, generates exactly one embedding per initially-unembedded memory, and
leaves already-embedded memory rows in place. -/
theorem backfillLoop_spec (gen : String → List Nat) (mn : String)
    (idOf : Nat → String) (t : Int) (bs : Nat) (hbs : 1 ≤ bs) :
    ∀ (N : Nat) (db : EmbDb) (n : Nat), flag0Count db ≤ N →
      (db.memories.map MemoryRow.id).Nodup →
      flag0Count (backfillLoop gen mn idOf t bs db n).1 = 0
      ∧ (backfillLoop gen mn idOf t bs db n).2 = n + flag0Count db
      ∧ ∀ m ∈ db.memories, m.has_embedding = true →
          m ∈ (backfillLoop gen mn idOf t bs db n).1.memories := by
  intro N
  induction N with
  | zero =>
    intro db n hle hnd
    have h0 : flag0Count db = 0 := Nat.le_zero.mp hle
    have hids : flag0Ids db = [] := List.length_eq_zero.mp h0
    have hempty : get_memories_without_embeddings db bs = [] := by
      have hmap := mids_get_memories db bs
      rw [hids, List.take_nil] at hmap
      exact List.map_eq_nil_iff.mp hmap
    rw [backfillLoop_empty gen mn idOf t bs db n hempty]
    exact ⟨h0, by omega, fun m hm _ => hm⟩
  | succ N ih =>
    intro db n hle hnd
    by_cases hempty : get_memories_without_embeddings db bs = []
    · have hids : flag0Ids db = [] := by
        have hmap := mids_get_memories db bs
        rw [hempty] at hmap
        rcases List.take_eq_nil_iff.mp hmap.symm with h | h
        · exact absurd h (by omega)
        · exact h
      rw [backfillLoop_empty gen mn idOf t bs db n hempty]
      refine ⟨?_, ?_, fun m hm _ => hm⟩
      · simp [flag0Count, hids]
      · simp [flag0Count, hids]
    · rw [backfillLoop_step gen mn idOf t bs db n hempty]
      have hndf : (flag0Ids db).Nodup :=
        hnd.sublist ((List.filter_sublist _).map MemoryRow.id)
      have hflag' : flag0Ids (storeBatch gen mn idOf t db
          (get_memories_without_embeddings db bs) n).1 = (flag0Ids db).drop bs := by
        rw [flag0Ids_storeBatch_eq, mids_get_memories,
          filter_all_ne_take _ hndf]
      have hcount1 : 1 ≤ flag0Count db := by
        rcases Nat.eq_zero_or_pos (flag0Count db) with h | h
        · exfalso
          apply hempty
          have hids : flag0Ids db = [] := List.length_eq_zero.mp h
          have hmap := mids_get_memories db bs
          rw [hids, List.take_nil] at hmap
          exact List.map_eq_nil_iff.mp hmap
        · exact h
      have hbatchlen : (get_memories_without_embeddings db bs).length
          = min bs (flag0Count db) := by
        have := congrArg List.length (mids_get_memories db bs)
        simpa [flag0Count] using this
      have hcount' : flag0Count (storeBatch gen mn idOf t db
          (get_memories_without_embeddings db bs) n).1
          = flag0Count db - bs := by
        rw [flag0Count, hflag', List.length_drop]
        rfl
      have hle' : flag0Count (storeBatch gen mn idOf t db
          (get_memories_without_embeddings db bs) n).1 ≤ N := by
        omega
      have hnd' : ((storeBatch gen mn idOf t db
          (get_memories_without_embeddings db bs) n).1.memories.map
            MemoryRow.id).Nodup := by
        rw [ids_storeBatch]
        exact hnd
      obtain ⟨ih1, ih2, ih3⟩ := ih _ _ hle' hnd'
      refine ⟨ih1, ?_, ?_⟩
      · rw [ih2, storeBatch_counter, hbatchlen, hcount']
        omega
      · intro m hm hf
        exact ih3 m (mem_storeBatch_of_flag gen mn idOf t _ db n m hf hm) hf

end Embeddings

/-- C6: `backfill_embeddings` (with each batch's generation succeeding,
modelled by the pure `gen`) terminates on every database state — each loop
pass over a nonempty candidate batch strictly decreases the number of
memories with `has_embedding = 0` — and, for a positive batch size and
duplicate-free memory ids (the id column is a primary key): upon return no
memory has `has_embedding = 0`; the returned count is exactly the number
of initially-unembedded memories, so a rerun processes exactly the
memories whose flag is still 0; and already-embedded memory rows are left
in place, untouched. -/
theorem backfill_embeddings_resumable :
    (∀ (gen : String → List Nat) (mn : String) (idOf : Nat → String) (t : Int)
        (bs : Nat) (db : Embeddings.EmbDb)
        (mid c : String) (ctx : Option String)
        (rest : List (String × String × Option String)) (n : Nat),
      Embeddings.get_memories_without_embeddings db bs = (mid, c, ctx) :: rest →
      Embeddings.flag0Count
          (Embeddings.storeBatch gen mn idOf t db ((mid, c, ctx) :: rest) n).1
        < Embeddings.flag0Count db)
    ∧ (∀ (gen : String → List Nat) (mn : String) (idOf : Nat → String) (t : Int)
        (db : Embeddings.EmbDb) (bs : Nat), 1 ≤ bs →
        (db.memories.map Embeddings.MemoryRow.id).Nodup →
      Embeddings.flag0Count
          (Embeddings.backfill_embeddings gen mn idOf t db bs).1 = 0
      ∧ (Embeddings.backfill_embeddings gen mn idOf t db bs).2
          = Embeddings.flag0Count db
      ∧ ∀ m ∈ db.memories, m.has_embedding = true →
          m ∈ (Embeddings.backfill_embeddings gen mn idOf t db bs).1.memories) := by
  constructor
  · intro gen mn idOf t bs db mid c ctx rest n hb
    refine Embeddings.flag0Count_storeBatch_lt gen mn idOf t db mid c ctx rest n ?_
    have hmem : mid ∈ (Embeddings.get_memories_without_embeddings db bs).map
        Prod.fst := by
      rw [hb]
      exact List.mem_cons_self _ _
    rw [Embeddings.mids_get_memories] at hmem
    exact List.mem_of_mem_take hmem
  · intro gen mn idOf t db bs hbs hnd
    have h := Embeddings.backfillLoop_spec gen mn idOf t bs hbs
      (Embeddings.flag0Count db) db 0 le_rfl hnd
    exact ⟨h.1, by simpa [Embeddings.backfill_embeddings] using h.2.1,
      h.2.2⟩

/-- Witness for C6 at a concrete two-memory database (one memory already
embedded), batch size 1. -/
theorem backfill_embeddings_resumable_witness :
    Embeddings.flag0Count
        (Embeddings.backfill_embeddings (fun _ => [0]) "all-MiniLM-L6-v2"
          (fun _ => "e") 0
          ⟨[], [⟨"m1", "a", none, false⟩, ⟨"m2", "b", none, true⟩]⟩ 1).1 = 0
    ∧ (Embeddings.backfill_embeddings (fun _ => [0]) "all-MiniLM-L6-v2"
          (fun _ => "e") 0
          ⟨[], [⟨"m1", "a", none, false⟩, ⟨"m2", "b", none, true⟩]⟩ 1).2 = 1 := by
  have h := backfill_embeddings_resumable.2 (fun _ => [0]) "all-MiniLM-L6-v2"
    (fun _ => "e") 0 ⟨[], [⟨"m1", "a", none, false⟩, ⟨"m2", "b", none, true⟩]⟩ 1
    (by decide) (by decide)
  exact ⟨h.1, h.2.1⟩

end OmniCortex
